import Mathlib

/-!
A verification development for the tork workflow engine.

The definitions below are a shallow embedding of the program:

* `runtime/docker.go` is embedded directly: the filtering log reader
  (`filteredRead` / `readAll`), CPU and memory limit parsing
  (`parseCPUs` / `parseMemory`), and the control flow of
  `DockerRuntime.Run` (`dockerRun`), including which exit paths remove
  the created container.

* The in-memory datastore and the coordinator's pending handler are not
  part of the available sources (only their tests are), so those parts
  are modelled from the specification text and marked as such in their
  doc comments.

Bytes are modelled as `Nat`, Go's `int64` as `Int` with explicit
wrap-around where overflow matters, and fallible Go functions as
`Except`.
-/

namespace Tork

/-! ## The filtering log reader (`filteredReader.Read` in runtime/docker.go)

`filteredReader.Read` reads a chunk from the wrapped reader and compacts
it in place, dropping the bytes 0x00 (null), 0x01 (start of heading) and
0x0B.  If every byte of the chunk was dropped (`j == 0`) it returns
`(0, io.EOF)`.
-/

/-- A byte survives the filter iff it is none of 0x00, 0x01, 0x0B
(the branch condition of the copy loop in `filteredReader.Read`). -/
def keepByte (b : Nat) : Bool :=
  decide (b ≠ 0) && decide (b ≠ 1) && decide (b ≠ 11)

/-- The bytes of one chunk that survive the in-place compaction. -/
def filterChunk (c : List Nat) : List Nat :=
  c.filter keepByte

/-- One call of `filteredReader.Read`, given that the wrapped reader
returned the chunk `c` with no error: the filtered bytes, or `none`
when the result is empty, in which case the method returns
`(0, io.EOF)`. -/
def filteredRead (c : List Nat) : Option (List Nat) :=
  let f := filterChunk c
  if f.isEmpty then none else some f

/-- Reading the whole stream through `filteredReader`: the driver
(`io.Copy`) keeps calling `Read`; each call consumes one chunk of the
underlying stream; an `io.EOF` return ends the copy.  The underlying
stream delivers the chunks in `cs` and then reports end of stream. -/
def readAll : List (List Nat) → List Nat
  | [] => []
  | c :: cs =>
    match filteredRead c with
    | none => []
    | some f => f ++ readAll cs

theorem filterChunk_append (a b : List Nat) :
    filterChunk (a ++ b) = filterChunk a ++ filterChunk b := by
  simp [filterChunk]

/-- When no chunk is filtered down to nothing, the reader delivers
exactly the filtered concatenation of the stream. -/
theorem readAll_eq_filter_join (cs : List (List Nat))
    (h : ∀ c ∈ cs, filterChunk c ≠ []) :
    readAll cs = filterChunk cs.flatten := by
  induction cs with
  | nil => simp [readAll, filterChunk]
  | cons c cs ih =>
    have hc : filterChunk c ≠ [] := h c (List.mem_cons_self c cs)
    have hcs : ∀ x ∈ cs, filterChunk x ≠ [] := fun x hx => h x (List.mem_cons_of_mem c hx)
    simp only [readAll, filteredRead, List.flatten_cons, filterChunk_append]
    rw [if_neg (by simpa [List.isEmpty_iff] using hc)]
    rw [ih hcs]

/-! ## CPU limit parsing (`parseCPUs` in runtime/docker.go)

`parseCPUs` parses the limit string with `big.Rat.SetString`, multiplies
by 1e9, rejects non-integers with "value is too precise", and returns
`nano.Num().Int64()`.

`ratSetString` and its helpers follow the algorithm of Go's
`Rat.SetString` (math/big/ratconv.go).  A string containing '/' is a
fraction: the part before the first '/' is parsed by `Int.SetString` in
base 0, the divisor is scanned unsigned by `nat.scan` in base 0 and
must consume the rest of the string and be nonzero.  Anything else is
an optional sign, a mantissa scanned by `nat.scan` in base 0 with a
radix point permitted, and an optional 'e'/'E' (decimal) or 'p'/'P'
(binary) exponent whose digits must fit in an int64.  `nat.scan` in
base 0 recognizes the base prefixes 0b/0o/0x, treats a leading 0 as an
octal prefix only when no radix point is permitted (so in fraction
parts but not in the float mantissa), and allows '_' separators
between digits.  The whole string must be consumed, a zero mantissa
short-circuits to 0, and excessively large exponents are rejected
(|exp5| > 1e6 or |exp2| > 1e7).
-/

/-- The numeric value of an all-decimal-digit string (used by the
memory-size model below). -/
def digitsVal (cs : List Char) : Nat :=
  cs.foldl (fun a c => a * 10 + (c.toNat - 48)) 0

/-- The digit value of a character as in `nat.scan`: '0'-'9', and
letters with value 10 and up; `none` for anything else. -/
def charDigit (c : Char) : Option Nat :=
  if '0' ≤ c ∧ c ≤ '9' then some (c.toNat - 48)
  else if 'a' ≤ c ∧ c ≤ 'z' then some (c.toNat - 97 + 10)
  else if 'A' ≤ c ∧ c ≤ 'Z' then some (c.toNat - 65 + 10)
  else none

/-- The running state of the digit-collection loop of `nat.scan`:
the actual base, whether a radix point may still be consumed, the
previously seen character class ('.', '0' for a digit, '_'), the
invalid-separator flag, the accumulated value, the digit count, and the
radix point position, if seen. -/
structure ScanState where
  b : Nat
  fracOk : Bool
  prev : Char
  invalSep : Bool
  value : Nat
  count : Int
  dp : Option Int
deriving DecidableEq

/-- The digit-collection loop of `nat.scan`: consume the radix point,
'_' separators (the base argument is always 0 here) and digits of the
actual base; stop at the first character that does not belong to the
number, leaving it unconsumed. -/
def scanLoop (s : ScanState) : List Char → ScanState × List Char
  | [] => (s, [])
  | c :: tl =>
    if c = '.' ∧ s.fracOk then
      scanLoop { s with fracOk := false,
                        invalSep := s.invalSep || decide (s.prev = '_'),
                        prev := '.', dp := some s.count } tl
    else if c = '_' then
      scanLoop { s with invalSep := s.invalSep || decide (s.prev ≠ '0'),
                        prev := '_' } tl
    else
      match charDigit c with
      | some d =>
        if d < s.b then
          scanLoop { s with value := s.value * s.b + d,
                            count := s.count + 1, prev := '0' } tl
        else (s, c :: tl)
      | none => (s, c :: tl)

/-- The result of `nat.scan`: the value (radix point ignored), the
actual base, the digit count (made negative of the number of
fractional digits when a radix point was seen), and the unconsumed
rest. -/
structure NatScanResult where
  value : Nat
  b : Nat
  fcount : Int
  rest : List Char
deriving DecidableEq

/-- `nat.scan` with base argument 0: determine the actual base from a
prefix, run the digit loop, and apply the no-digits /
invalid-separator checks; a lone octal prefix counts as the decimal
digit 0. -/
def natScan (fracOk : Bool) (cs : List Char) : Option NatScanResult :=
  let pre : Nat × Option Char × Int × Char × List Char :=
    match cs with
    | '0' :: tl =>
      match tl with
      | [] => (10, none, 1, '0', [])
      | c :: tl2 =>
        if c = 'b' ∨ c = 'B' then (2, some 'b', 0, '0', tl2)
        else if c = 'o' ∨ c = 'O' then (8, some 'o', 0, '0', tl2)
        else if c = 'x' ∨ c = 'X' then (16, some 'x', 0, '0', tl2)
        else if fracOk then (10, none, 1, '0', c :: tl2)
        else (8, some '0', 0, '0', c :: tl2)
    | _ => (10, none, 0, '.', cs)
  match pre with
  | (b, pfx, count0, prev0, rest0) =>
    let (s, rest) := scanLoop ⟨b, fracOk, prev0, false, 0, count0, none⟩ rest0
    if s.count = 0 then
      if pfx = some '0' then some ⟨0, 10, 1, rest⟩ else none
    else if s.invalSep || decide (s.prev = '_') then none
    else
      let fc : Int :=
        match s.dp with
        | some dp => dp - s.count
        | none => s.count
      some ⟨s.value, s.b, fc, rest⟩

/-- `scanSign`: consume one optional leading sign. -/
def scanSignC : List Char → Bool × List Char
  | '-' :: tl => (true, tl)
  | '+' :: tl => (false, tl)
  | cs => (false, cs)

/-- `Int.SetString(s, 0)`: a sign, `nat.scan` in base 0 without a radix
point, and the entire string must be consumed. -/
def intSetString (cs : List Char) : Option Int :=
  let (neg, cs1) := scanSignC cs
  match natScan false cs1 with
  | none => none
  | some r =>
    if r.rest.isEmpty then
      some (if neg then -(r.value : Int) else (r.value : Int))
    else none

/-- The running state of the exponent-digit loop of `scanExponent`. -/
structure ExpScanState where
  prev : Char
  invalSep : Bool
  value : Nat
  hasDigits : Bool
deriving DecidableEq

/-- The digit loop of `scanExponent`: decimal digits with '_'
separators (sepOk is set); stop at the first other character. -/
def expLoop (s : ExpScanState) : List Char → ExpScanState × List Char
  | [] => (s, [])
  | c :: tl =>
    if '0' ≤ c ∧ c ≤ '9' then
      expLoop { s with value := s.value * 10 + (c.toNat - 48),
                       prev := '0', hasDigits := true } tl
    else if c = '_' then
      expLoop { s with invalSep := s.invalSep || decide (s.prev ≠ '0'),
                       prev := '_' } tl
    else (s, c :: tl)

/-- `scanExponent` with base2ok and sepOk set: an optional 'e'/'E'
(base 10) or 'p'/'P' (base 2) exponent with an optional sign; the
digits must form a valid separated run and the value must fit in an
int64 (`strconv.ParseInt`). -/
def scanExponentC : List Char → Option (Int × Nat × List Char)
  | [] => some (0, 10, [])
  | c :: tl =>
    let eb : Option Nat :=
      if c = 'e' ∨ c = 'E' then some 10
      else if c = 'p' ∨ c = 'P' then some 2
      else none
    match eb with
    | none => some (0, 10, c :: tl)
    | some base =>
      let (neg, tl1) :=
        match tl with
        | '-' :: r => (true, r)
        | '+' :: r => (false, r)
        | r => (false, r)
      match expLoop ⟨'.', false, 0, false⟩ tl1 with
      | (s, rest) =>
        if !s.hasDigits then none
        else if s.invalSep || decide (s.prev = '_') then none
        else
          let e : Int := if neg then -(s.value : Int) else (s.value : Int)
          if e < -(2 ^ 63) ∨ (2 ^ 63 - 1) < e then none
          else some (e, base, rest)

/-- Split at the first '/' (`strings.Index(s, "/")`). -/
def splitSlash (cs : List Char) : List Char × Option (List Char) :=
  match cs with
  | [] => ([], none)
  | c :: tl =>
    if c = '/' then ([], some tl)
    else
      let (pre, post) := splitSlash tl
      (c :: pre, post)

/-- Model of `big.Rat.SetString`, following math/big/ratconv.go; see
the section comment. -/
def ratSetString (s : String) : Option ℚ :=
  let cs := s.toList
  if cs.isEmpty then none
  else
    match splitSlash cs with
    | (numPart, some denPart) =>
      match intSetString numPart with
      | none => none
      | some a =>
        match natScan false denPart with
        | none => none
        | some r =>
          if !r.rest.isEmpty then none
          else if r.value = 0 then none
          else some ((a : ℚ) / (r.value : ℚ))
    | (_, none) =>
      let (neg, cs1) := scanSignC cs
      match natScan true cs1 with
      | none => none
      | some m =>
        match scanExponentC m.rest with
        | none => none
        | some (exp, ebase, rest) =>
          if !rest.isEmpty then none
          else if m.value = 0 then some 0
          else
            let fc : Int := if m.fcount < 0 then m.fcount else 0
            let e5 : Int :=
              (if m.b = 10 then fc else 0) + (if ebase = 10 then exp else 0)
            let e2 : Int :=
              (if m.b = 10 ∨ m.b = 2 then fc
               else if m.b = 8 then 3 * fc else 4 * fc) + exp
            if 1000000 < e5.natAbs then none
            else if e2 < -10000000 ∨ 10000000 < e2 then none
            else
              let q : ℚ := (m.value : ℚ) * (5 : ℚ) ^ e5 * (2 : ℚ) ^ e2
              some (if neg then -q else q)

/-- Go's `big.Int.Int64` on an out-of-range value keeps the low 64 bits
(two's complement); in range it is the identity. -/
def int64wrap (n : Int) : Int :=
  (n + 2 ^ 63) % 2 ^ 64 - 2 ^ 63

/-- `parseCPUs` from runtime/docker.go: empty means no limit; otherwise
parse a rational, multiply by 1e9, reject non-integers, and return the
numerator through `Int64()`. -/
def parseCPUs (value : String) : Except String Int :=
  if value = "" then .ok 0
  else
    match ratSetString value with
    | none => .error ("failed to parse " ++ value ++ " as a rational number")
    | some cpu =>
      let nano := cpu * (1000000000 : ℚ)
      if nano.den = 1 then .ok (int64wrap nano.num)
      else .error "value is too precise"

/-- Restricted model of `go-units.RAMInBytes` on integer values with
an immediately following size suffix; all suffixes (SI and binary
spellings) are binary multiples of 1024, as that library documents.
The library additionally accepts decimal sizes such as "1.5g" and an
optional space before the suffix, computing through float64; no claim
judged here exercises a non-empty memory string, only the empty-string
guard of `parseMemory` itself, which is in docker.go. -/
def ramInBytes (s : String) : Except String Int :=
  let cs := (s.toList.map Char.toLower)
  let digits := cs.takeWhile Char.isDigit
  let suffix := cs.dropWhile Char.isDigit
  if digits.isEmpty then .error ("invalid size: " ++ s)
  else
    let mult : Option Int :=
      match suffix with
      | [] => some 1
      | ['b'] => some 1
      | ['k'] | ['k', 'i'] | ['k', 'i', 'b'] | ['k', 'b'] => some 1024
      | ['m'] | ['m', 'i'] | ['m', 'i', 'b'] | ['m', 'b'] => some (1024 ^ 2)
      | ['g'] | ['g', 'i'] | ['g', 'i', 'b'] | ['g', 'b'] => some (1024 ^ 3)
      | ['t'] | ['t', 'i'] | ['t', 'i', 'b'] | ['t', 'b'] => some (1024 ^ 4)
      | ['p'] | ['p', 'i'] | ['p', 'i', 'b'] | ['p', 'b'] => some (1024 ^ 5)
      | _ => none
    match mult with
    | some m => .ok ((digitsVal digits : Int) * m)
    | none => .error ("invalid suffix: " ++ s)

/-- `parseMemory` from runtime/docker.go: empty means no limit,
otherwise `units.RAMInBytes`. -/
def parseMemory (value : String) : Except String Int :=
  if value = "" then .ok 0 else ramInBytes value

/-! ## `DockerRuntime.Run` (runtime/docker.go)

`dockerRun` embeds the control flow of `Run`.  The behaviour of the
Docker daemon on this particular run is an explicit parameter
(`RunOutcome`): which client calls fail, the chunks the log stream
delivers, and the exit status.  The returned `RunEffects` records
whether a container was created (`ContainerCreate` succeeded) and
whether it was removed (the `Stop` call of the cleanup `defer` ran).
The `defer` that removes the container is registered only after
`ContainerStart` returns without error, exactly as in the source.
-/

structure TaskLimits where
  cpus : String
  memory : String
deriving DecidableEq

structure Task where
  id : String
  image : String
  volumes : List String
  limits : TaskLimits
deriving DecidableEq

/-- The daemon-side outcome of one `Run` invocation. -/
structure RunOutcome where
  pullErr : Bool
  createErr : Bool
  startErr : Bool
  logsErr : Bool
  readErr : Bool
  waitErr : Bool
  statusCode : Int
  logChunks : List (List Nat)
deriving DecidableEq

structure RunEffects where
  created : Bool
  removed : Bool
deriving DecidableEq

inductive RunErr where
  | pullFailed
  | invalidVolume (v : String)
  | invalidCPUs
  | invalidMemory
  | createFailed
  | startFailed
  | logsFailed
  | readFailed
  | waitFailed
  | exitNonZero (code : Int) (stdout : List Nat)
deriving DecidableEq

/-- The resource limits of the `container.HostConfig` built by `Run`:
`NanoCPUs` from `parseCPUs` and `Memory` from `parseMemory`. -/
def hostResources (t : Task) : Except RunErr (Int × Int) :=
  match parseCPUs t.limits.cpus with
  | .error _ => .error .invalidCPUs
  | .ok cpus =>
    match parseMemory t.limits.memory with
    | .error _ => .error .invalidMemory
    | .ok mem => .ok (cpus, mem)

/-- `strings.Split(v, ":")` must yield exactly two parts. -/
def badVolume (v : String) : Bool :=
  decide ((v.splitOn ":").length ≠ 2)

/-- The control flow of `DockerRuntime.Run`, with the container
lifecycle effects made explicit. -/
def dockerRun (t : Task) (o : RunOutcome) : RunEffects × Except RunErr (List Nat) :=
  if o.pullErr then (⟨false, false⟩, .error .pullFailed)
  else
    match t.volumes.find? badVolume with
    | some v => (⟨false, false⟩, .error (.invalidVolume v))
    | none =>
      match hostResources t with
      | .error e => (⟨false, false⟩, .error e)
      | .ok _ =>
        if o.createErr then (⟨false, false⟩, .error .createFailed)
        else if o.startErr then
          -- the cleanup defer is not yet registered on this path
          (⟨true, false⟩, .error .startFailed)
        else if o.logsErr then (⟨true, true⟩, .error .logsFailed)
        else if o.readErr then (⟨true, true⟩, .error .readFailed)
        else
          let snapshot := (readAll o.logChunks).take 1024
          if o.waitErr then (⟨true, true⟩, .error .waitFailed)
          else if o.statusCode ≠ 0 then
            (⟨true, true⟩, .error (.exitNonZero o.statusCode snapshot))
          else (⟨true, true⟩, .ok snapshot)

/-! ## Datastore entities and the eviction sweep

The in-memory datastore implementation is not among the available
sources (only its test suite is), so the entity model and the sweep are
modelled from the specification text (sections 3 and 4.1).
Timestamps are `Nat` instants.
-/

inductive JobState where
  | pending | scheduled | running | completed | failed | cancelled
deriving DecidableEq

/-- Terminal job states per the data model. -/
def JobState.isTerminal : JobState → Bool
  | .completed | .failed | .cancelled => true
  | _ => false

structure Job where
  id : String
  state : JobState
  /-- The terminal timestamp, set when the job reaches a terminal state. -/
  endedAt : Option Nat
deriving DecidableEq

structure DTask where
  id : String
  jobId : String
deriving DecidableEq

structure TaskLogPart where
  taskId : String
  number : Nat
  contents : String
deriving DecidableEq

structure Node where
  id : String
  lastHeartbeatAt : Nat
deriving DecidableEq

structure Datastore where
  jobs : List Job
  tasks : List DTask
  logParts : List TaskLogPart
  nodes : List Node
deriving DecidableEq

/-- `{CleanupInterval, NodeExpiration, JobExpiration}`; a zero
expiration disables that class of eviction. -/
structure DSConfig where
  cleanupInterval : Nat
  nodeExpiration : Nat
  jobExpiration : Nat
deriving DecidableEq

inductive DSErr where
  | jobNotFound | taskNotFound | nodeNotFound
deriving DecidableEq

/-- Modelled from the spec: a job is evicted when eviction is enabled,
its state is terminal, and its terminal-timestamp is older than
`JobExpiration`; a `Running` job is never evicted. -/
def jobExpired (cfg : DSConfig) (now : Nat) (j : Job) : Bool :=
  decide (cfg.jobExpiration ≠ 0) && j.state.isTerminal &&
    match j.endedAt with
    | some ts => decide (ts + cfg.jobExpiration < now)
    | none => false

/-- Modelled from the spec: a node is evicted when its last heartbeat
is older than `NodeExpiration`. -/
def nodeExpired (cfg : DSConfig) (now : Nat) (n : Node) : Bool :=
  decide (cfg.nodeExpiration ≠ 0) &&
    decide (n.lastHeartbeatAt + cfg.nodeExpiration < now)

/-- Modelled from the spec: one pass of the background sweeper.  It
removes expired jobs together with their tasks and log parts, and
expired nodes. -/
def sweep (cfg : DSConfig) (now : Nat) (ds : Datastore) : Datastore :=
  let removedJobIds := (ds.jobs.filter (jobExpired cfg now)).map Job.id
  let removedTaskIds :=
    (ds.tasks.filter (fun t => decide (t.jobId ∈ removedJobIds))).map DTask.id
  { jobs := ds.jobs.filter (fun j => !(jobExpired cfg now j))
  , tasks := ds.tasks.filter (fun t => !(decide (t.jobId ∈ removedJobIds)))
  , logParts := ds.logParts.filter (fun p => !(decide (p.taskId ∈ removedTaskIds)))
  , nodes := ds.nodes.filter (fun n => !(nodeExpired cfg now n)) }

/-- Modelled from the spec: `GetJobByID` returns the stored job or
`ErrJobNotFound`. -/
def getJobByID (ds : Datastore) (id : String) : Except DSErr Job :=
  match ds.jobs.find? (fun j => j.id = id) with
  | some j => .ok j
  | none => .error .jobNotFound

/-- Modelled from the spec: `GetTaskByID` returns the stored task or
`ErrTaskNotFound`. -/
def getTaskByID (ds : Datastore) (id : String) : Except DSErr DTask :=
  match ds.tasks.find? (fun t => t.id = id) with
  | some t => .ok t
  | none => .error .taskNotFound

/-! ## Log part retrieval

`GetTaskLogParts(taskId, contains, page, size)` is modelled from the
spec: filter the task's parts (case-insensitive substring match when
`contains` is non-empty), order newest-first by part number, and
paginate with a 1-based page.
-/

/-- Lower-cased character list of a string, for case-insensitive
comparison. -/
def lowerChars (s : String) : List Char :=
  s.toList.map Char.toLower

/-- `leadsWith n h` : `n` is an initial segment of `h`. -/
def leadsWith : List Char → List Char → Bool
  | [], _ => true
  | _ :: _, [] => false
  | a :: as, b :: bs => a = b && leadsWith as bs

/-- `hasSub n h` : `n` occurs contiguously inside `h`. -/
def hasSub (n : List Char) : List Char → Bool
  | [] => n.isEmpty
  | c :: cs => leadsWith n (c :: cs) || hasSub n cs

/-- The filter applied to a task's log parts: owned by the task and,
when `contains` is non-empty, a case-insensitive substring match on the
contents. -/
def logPartMatches (taskId contains : String) (p : TaskLogPart) : Bool :=
  decide (p.taskId = taskId) &&
    (decide (contains = "") || hasSub (lowerChars contains) (lowerChars p.contents))

/-- Insert a part into a list that is ordered by part number
descending. -/
def insertDesc (p : TaskLogPart) : List TaskLogPart → List TaskLogPart
  | [] => [p]
  | q :: qs => if q.number ≤ p.number then p :: q :: qs else q :: insertDesc p qs

/-- Order log parts newest-first by part number. -/
def sortDesc : List TaskLogPart → List TaskLogPart
  | [] => []
  | p :: ps => insertDesc p (sortDesc ps)

/-- A paginated response: `{items, size, total_pages, total_items}`. -/
structure LogPage where
  items : List TaskLogPart
  size : Nat
  totalPages : Nat
  totalItems : Nat
deriving DecidableEq

/-- Modelled from the spec: `GetTaskLogParts(taskId, contains, page,
size)`. -/
def getTaskLogParts (ds : Datastore) (taskId contains : String)
    (page size : Nat) : LogPage :=
  let all := sortDesc (ds.logParts.filter (logPartMatches taskId contains))
  let items := (all.drop ((page - 1) * size)).take size
  ⟨items, items.length, (all.length + size - 1) / size, all.length⟩

theorem mem_insertDesc {a p : TaskLogPart} {l : List TaskLogPart} :
    a ∈ insertDesc p l ↔ a = p ∨ a ∈ l := by
  induction l with
  | nil => simp [insertDesc]
  | cons q qs ih =>
    by_cases h : q.number ≤ p.number
    · simp [insertDesc, h]
    · simp only [insertDesc, if_neg h, List.mem_cons, ih]
      tauto

theorem length_insertDesc (p : TaskLogPart) (l : List TaskLogPart) :
    (insertDesc p l).length = l.length + 1 := by
  induction l with
  | nil => rfl
  | cons q qs ih =>
    by_cases h : q.number ≤ p.number
    · simp [insertDesc, h]
    · simp [insertDesc, h, ih]

theorem length_sortDesc (l : List TaskLogPart) :
    (sortDesc l).length = l.length := by
  induction l with
  | nil => rfl
  | cons p ps ih => simp [sortDesc, length_insertDesc, ih]

theorem mem_sortDesc {a : TaskLogPart} {l : List TaskLogPart} :
    a ∈ sortDesc l ↔ a ∈ l := by
  induction l with
  | nil => simp [sortDesc]
  | cons p ps ih => simp [sortDesc, mem_insertDesc, ih]

/-- The newest-first ordering relation on log parts. -/
def newerEq (a b : TaskLogPart) : Prop := b.number ≤ a.number

theorem pairwise_insertDesc {p : TaskLogPart} {l : List TaskLogPart}
    (h : l.Pairwise newerEq) : (insertDesc p l).Pairwise newerEq := by
  induction l with
  | nil => simp [insertDesc, List.pairwise_cons]
  | cons q qs ih =>
    rcases List.pairwise_cons.mp h with ⟨hq, hqs⟩
    by_cases hle : q.number ≤ p.number
    · rw [insertDesc, if_pos hle]
      refine List.pairwise_cons.mpr ⟨?_, h⟩
      intro b hb
      rcases List.mem_cons.mp hb with rfl | hb
      · exact hle
      · exact Nat.le_trans (hq b hb) hle
    · rw [insertDesc, if_neg hle]
      refine List.pairwise_cons.mpr ⟨?_, ih hqs⟩
      intro b hb
      rcases mem_insertDesc.mp hb with rfl | hb
      · exact Nat.le_of_lt (Nat.lt_of_not_le hle)
      · exact hq b hb

theorem pairwise_sortDesc (l : List TaskLogPart) :
    (sortDesc l).Pairwise newerEq := by
  induction l with
  | nil => simp [sortDesc]
  | cons p ps ih => exact pairwise_insertDesc ih

/-! ## Job search and the permission filter

`GetJobs(username, q, page, size)` is modelled from the spec: the query
grammar (`tag:`, `tags:`, free text, empty) combined with the
permission filter for a non-empty username.
-/

structure User where
  id : String
  username : String
deriving DecidableEq

structure Role where
  id : String
  slug : String
deriving DecidableEq

/-- A permission attaches a user or a role to a job. -/
structure Permission where
  user : Option User
  role : Option Role
deriving DecidableEq

structure SJob where
  id : String
  name : String
  stateName : String
  tags : List String
  createdBy : Option User
  permissions : List Permission
deriving DecidableEq

structure AuthStore where
  users : List User
  roles : List Role
  /-- Role assignments as `(userId, roleId)` pairs. -/
  userRoles : List (String × String)
  jobs : List SJob
deriving DecidableEq

/-- Modelled from the spec: the job search grammar.  `tag:<t>` requires
the tag, `tags:<t1>,...` requires at least one listed tag, anything
else is a case-insensitive substring match against name or state name,
and the empty query matches all. -/
def jobMatchesQuery (q : String) (j : SJob) : Bool :=
  if q = "" then true
  else if leadsWith "tag:".toList q.toList then
    j.tags.contains (q.drop 4)
  else if leadsWith "tags:".toList q.toList then
    ((q.drop 5).splitOn ",").any (fun t => j.tags.contains t)
  else
    hasSub (lowerChars q) (lowerChars j.name) ||
      hasSub (lowerChars q) (lowerChars j.stateName)

/-- Modelled from the spec: whether the named user holds the role,
through the store's role assignments. -/
def userHasRole (st : AuthStore) (username roleId : String) : Bool :=
  st.users.any (fun u =>
    decide (u.username = username) &&
      st.userRoles.any (fun ur => decide (ur.1 = u.id) && decide (ur.2 = roleId)))

/-- Modelled from the spec: a job is visible to a user when it has no
permissions attached, the user is its creator, a permission names the
user directly, or a permission names a role assigned to the user. -/
def jobVisible (st : AuthStore) (username : String) (j : SJob) : Bool :=
  j.permissions.isEmpty ||
  (match j.createdBy with
   | some u => decide (u.username = username)
   | none => false) ||
  j.permissions.any (fun p =>
    (match p.user with
     | some u => decide (u.username = username)
     | none => false) ||
    (match p.role with
     | some r => userHasRole st username r.id
     | none => false))

/-- Modelled from the spec: the list of jobs matching `GetJobs(username,
q, _, _)` before pagination slices it into pages. -/
def getJobsFiltered (st : AuthStore) (username q : String) : List SJob :=
  st.jobs.filter (fun j =>
    jobMatchesQuery q j && (decide (username = "") || jobVisible st username j))

/-- The visibility condition of the claim, stated declaratively:
no permissions, creator, a permission naming the user, or a permission
naming a role assigned to the user. -/
def VisibleSpec (st : AuthStore) (username : String) (j : SJob) : Prop :=
  j.permissions = [] ∨
  (∃ c, j.createdBy = some c ∧ c.username = username) ∨
  (∃ p ∈ j.permissions, ∃ u, p.user = some u ∧ u.username = username) ∨
  (∃ p ∈ j.permissions, ∃ r, p.role = some r ∧
    ∃ u ∈ st.users, u.username = username ∧ (u.id, r.id) ∈ st.userRoles)

theorem jobVisible_iff (st : AuthStore) (username : String) (j : SJob) :
    jobVisible st username j = true ↔ VisibleSpec st username j := by
  unfold jobVisible VisibleSpec userHasRole
  constructor
  · intro h
    rcases Bool.or_eq_true_iff.mp h with h | h
    · rcases Bool.or_eq_true_iff.mp h with h | h
      · exact Or.inl (List.isEmpty_iff.mp h)
      · refine Or.inr (Or.inl ?_)
        cases hc : j.createdBy with
        | none => rw [hc] at h; exact absurd h (by simp)
        | some u =>
          rw [hc] at h
          exact ⟨u, rfl, of_decide_eq_true h⟩
    · rcases List.any_eq_true.mp h with ⟨p, hp, hpv⟩
      rcases Bool.or_eq_true_iff.mp hpv with hpv | hpv
      · refine Or.inr (Or.inr (Or.inl ?_))
        cases hu : p.user with
        | none => rw [hu] at hpv; exact absurd hpv (by simp)
        | some u =>
          rw [hu] at hpv
          exact ⟨p, hp, u, hu, of_decide_eq_true hpv⟩
      · refine Or.inr (Or.inr (Or.inr ?_))
        cases hr : p.role with
        | none => rw [hr] at hpv; exact absurd hpv (by simp)
        | some r =>
          rw [hr] at hpv
          rcases List.any_eq_true.mp hpv with ⟨u, hu, huv⟩
          rw [Bool.and_eq_true] at huv
          rcases huv with ⟨hun, hur⟩
          rcases List.any_eq_true.mp hur with ⟨ur, hurm, hurv⟩
          rw [Bool.and_eq_true] at hurv
          rcases hurv with ⟨h1, h2⟩
          refine ⟨p, hp, r, hr, u, hu, of_decide_eq_true hun, ?_⟩
          have e1 : ur.1 = u.id := of_decide_eq_true h1
          have e2 : ur.2 = r.id := of_decide_eq_true h2
          have : ur = (u.id, r.id) := Prod.ext e1 e2
          rw [← this]; exact hurm
  · intro h
    rcases h with h | ⟨c, hc, hcn⟩ | ⟨p, hp, u, hu, hun⟩ | ⟨p, hp, r, hr, u, hu, hun, hur⟩
    · simp [h]
    · refine Bool.or_eq_true_iff.mpr (Or.inl (Bool.or_eq_true_iff.mpr (Or.inr ?_)))
      rw [hc]
      exact decide_eq_true hcn
    · refine Bool.or_eq_true_iff.mpr (Or.inr ?_)
      refine List.any_eq_true.mpr ⟨p, hp, Bool.or_eq_true_iff.mpr (Or.inl ?_)⟩
      rw [hu]
      exact decide_eq_true hun
    · refine Bool.or_eq_true_iff.mpr (Or.inr ?_)
      refine List.any_eq_true.mpr ⟨p, hp, Bool.or_eq_true_iff.mpr (Or.inr ?_)⟩
      rw [hr]
      refine List.any_eq_true.mpr ⟨u, hu, ?_⟩
      rw [Bool.and_eq_true]
      refine ⟨decide_eq_true hun, ?_⟩
      exact List.any_eq_true.mpr ⟨(u.id, r.id), hur, by simp⟩

/-! ## The Pending handler

The coordinator's pending handler is not among the available sources
(only its tests are), so it is modelled from the specification
(section 4.3): load the task; no-op if terminal; evaluate the `if`
expression against the job context and, when it is false, transition to
Skipped and publish to `COMPLETED`; otherwise transition to Scheduled
and publish to the task's queue (or the default queue).  The expression
evaluator is a parameter.
-/

inductive TaskState where
  | created | pending | scheduled | running | completed | failed | skipped | cancelled
deriving DecidableEq

def TaskState.isTerminal : TaskState → Bool
  | .completed | .failed | .skipped | .cancelled => true
  | _ => false

structure HTask where
  id : String
  state : TaskState
  queue : String
  ifExpr : String
deriving DecidableEq

/-- The job context the `if` expression is evaluated against. -/
def JobContext := List (String × String)

def QUEUE_COMPLETED : String := "completed"
def QUEUE_DEFAULT : String := "default"

/-- The execution queue the pending handler routes a runnable task to:
the task's queue when set, else the default queue. -/
def routeQueue (t : HTask) : String :=
  if t.queue ≠ "" then t.queue else QUEUE_DEFAULT

/-- Modelled from the spec: the Pending handler.  Returns the stored
task and the list of `(queue, task)` publications it performs. -/
def pendingHandler (evalExpr : String → JobContext → Bool)
    (ctx : JobContext) (t : HTask) : HTask × List (String × HTask) :=
  if t.state.isTerminal then (t, [])
  else if t.ifExpr ≠ "" && !(evalExpr t.ifExpr ctx) then
    let t1 := { t with state := TaskState.skipped }
    (t1, [(QUEUE_COMPLETED, t1)])
  else
    let t1 := { t with state := TaskState.scheduled }
    (t1, [(routeQueue t, t1)])

/-! ## Concurrent transactional updates

`UpdateJob(id, mutator)` is not among the available sources (only its
tests are).  It is modelled from the specification (sections 4.1 and
5): the update atomically loads the entity, applies the mutation, and
stores the result, serialized per entity behind an exclusive lock;
readers are excluded while a writer holds the lock.

The model is a small-step interleaving semantics.  A writer thread
performs five steps: acquire the lock, load the job into a local copy,
store the incremented task count, store the second mutated field (the
context write of the test's mutator), and release.  The two store steps
make a torn write representable: a state in which the task count is
updated but the context is not.  A reader step requires the lock to be
free and records the job it observed.  The theorems show that no
interleaving loses an update and that no reader ever observes a torn
state.
-/

/-- The two fields the test's mutator touches: the task count and a
context entry (modelled as a write counter). -/
structure CJob where
  taskCount : Nat
  ctxWrites : Nat
deriving DecidableEq

/-- A writer's program counter. -/
inductive WPhase where
  | idle | locked | loaded | counted | stored | finished
deriving DecidableEq

structure Writer where
  phase : WPhase
  localJob : CJob
deriving DecidableEq

/-- The shared state: the stored job, the per-entity exclusive lock
(holding writer's index, if any), the writer pool, and the values
readers have observed. -/
structure CState where
  job : CJob
  lock : Option Nat
  writers : List Writer
  obs : List CJob
deriving DecidableEq

/-- One interleaving step of the update/read model. -/
inductive CStep : CState → CState → Prop where
  | acquire (s : CState) (i : Nat) (w : Writer)
      (hw : s.writers.get? i = some w) (hphase : w.phase = WPhase.idle)
      (hlock : s.lock = none) :
      CStep s { s with lock := some i,
                       writers := s.writers.set i { w with phase := WPhase.locked } }
  | load (s : CState) (i : Nat) (w : Writer)
      (hw : s.writers.get? i = some w) (hphase : w.phase = WPhase.locked)
      (hlock : s.lock = some i) :
      CStep s { s with writers := s.writers.set i ⟨WPhase.loaded, s.job⟩ }
  | storeCount (s : CState) (i : Nat) (w : Writer)
      (hw : s.writers.get? i = some w) (hphase : w.phase = WPhase.loaded)
      (hlock : s.lock = some i) :
      CStep s { s with job := { s.job with taskCount := w.localJob.taskCount + 1 },
                       writers := s.writers.set i { w with phase := WPhase.counted } }
  | storeCtx (s : CState) (i : Nat) (w : Writer)
      (hw : s.writers.get? i = some w) (hphase : w.phase = WPhase.counted)
      (hlock : s.lock = some i) :
      CStep s { s with job := { s.job with ctxWrites := w.localJob.ctxWrites + 1 },
                       writers := s.writers.set i { w with phase := WPhase.stored } }
  | release (s : CState) (i : Nat) (w : Writer)
      (hw : s.writers.get? i = some w) (hphase : w.phase = WPhase.stored)
      (hlock : s.lock = some i) :
      CStep s { s with lock := none,
                       writers := s.writers.set i { w with phase := WPhase.finished } }
  | read (s : CState) (hlock : s.lock = none) :
      CStep s { s with obs := s.job :: s.obs }

/-- `N` writers about to run `UpdateJob` concurrently against a fresh
job. -/
def initCState (N : Nat) : CState :=
  ⟨⟨0, 0⟩, none, List.replicate N ⟨WPhase.idle, ⟨0, 0⟩⟩, []⟩

/-- The number of writers whose update has fully finished. -/
def doneCount (ws : List Writer) : Nat :=
  ws.countP (fun w => decide (w.phase = WPhase.finished))

theorem getElem_of_get? {ws : List Writer} {i : Nat} {w : Writer}
    (hw : ws.get? i = some w) : ∃ h : i < ws.length, ws[i] = w := by
  rcases List.get?_eq_some.mp hw with ⟨h, hg⟩
  exact ⟨h, by simpa [List.get_eq_getElem] using hg⟩

theorem get?_set_self {ws : List Writer} {i : Nat} {w : Writer} (w' : Writer)
    (hw : ws.get? i = some w) : (ws.set i w').get? i = some w' := by
  rw [List.get?_set_eq, hw]
  rfl

theorem doneCount_set_stable {ws : List Writer} {i : Nat} {w : Writer} (w' : Writer)
    (hw : ws.get? i = some w) (h1 : w.phase ≠ WPhase.finished)
    (h2 : w'.phase ≠ WPhase.finished) :
    doneCount (ws.set i w') = doneCount ws := by
  rcases getElem_of_get? hw with ⟨h, hg⟩
  unfold doneCount
  rw [List.countP_set _ _ _ _ h, hg]
  simp [h1, h2]

theorem doneCount_set_finished {ws : List Writer} {i : Nat} {w : Writer} (w' : Writer)
    (hw : ws.get? i = some w) (h1 : w.phase ≠ WPhase.finished)
    (h2 : w'.phase = WPhase.finished) :
    doneCount (ws.set i w') = doneCount ws + 1 := by
  rcases getElem_of_get? hw with ⟨h, hg⟩
  unfold doneCount
  rw [List.countP_set _ _ _ _ h, hg]
  simp [h1, h2]

/-- Every writer other than `i` is outside its critical section. -/
def othersOut (ws : List Writer) (i : Nat) : Prop :=
  ∀ j w', j ≠ i → ws.get? j = some w' →
    w'.phase = WPhase.idle ∨ w'.phase = WPhase.finished

/-- What holds of the shared job while writer `w` is at each point of
its critical section; `d` is the number of finished updates. -/
def holderInv (s : CState) (w : Writer) (d : Nat) : Prop :=
  (w.phase = WPhase.locked ∧ s.job.taskCount = d ∧ s.job.ctxWrites = d) ∨
  (w.phase = WPhase.loaded ∧ s.job.taskCount = d ∧ s.job.ctxWrites = d ∧
    w.localJob = s.job) ∨
  (w.phase = WPhase.counted ∧ w.localJob.taskCount = d ∧ w.localJob.ctxWrites = d ∧
    s.job.taskCount = d + 1 ∧ s.job.ctxWrites = d) ∨
  (w.phase = WPhase.stored ∧ w.localJob.taskCount = d ∧ w.localJob.ctxWrites = d ∧
    s.job.taskCount = d + 1 ∧ s.job.ctxWrites = d + 1)

/-- The lock-indexed part of the invariant. -/
def lockInv (s : CState) : Prop :=
  match s.lock with
  | none =>
    s.job.taskCount = doneCount s.writers ∧
    s.job.ctxWrites = doneCount s.writers ∧
    ∀ w ∈ s.writers, w.phase = WPhase.idle ∨ w.phase = WPhase.finished
  | some i =>
    ∃ w, s.writers.get? i = some w ∧ othersOut s.writers i ∧
      holderInv s w (doneCount s.writers)

/-- The global invariant of the interleaving semantics for `N` writers:
the writer pool is stable, every reader observation is the state after
some number `k ≤ N` of complete updates (never a torn write), and the
shared job agrees with the finished-update count as dictated by the
lock. -/
def CInv (N : Nat) (s : CState) : Prop :=
  s.writers.length = N ∧
  (∀ o ∈ s.obs, ∃ k, k ≤ N ∧ o = CJob.mk k k) ∧
  lockInv s

theorem CInv_init (N : Nat) : CInv N (initCState N) := by
  have hz : doneCount (List.replicate N (Writer.mk WPhase.idle (CJob.mk 0 0))) = 0 := by
    unfold doneCount
    rw [List.countP_eq_zero]
    intro w hw
    rw [List.eq_of_mem_replicate hw]
    simp
  refine ⟨by simp [initCState], by simp [initCState], ?_⟩
  simp only [lockInv, initCState]
  refine ⟨hz.symm, hz.symm, ?_⟩
  intro w hw
  rw [List.eq_of_mem_replicate hw]
  exact Or.inl rfl

theorem CInv_step {N : Nat} {s s' : CState} (hs : CStep s s') (h : CInv N s) :
    CInv N s' := by
  obtain ⟨hlen, hobs, hlock⟩ := h
  cases hs with
  | acquire i w hw hphase hl =>
    unfold lockInv at hlock
    rw [hl] at hlock
    obtain ⟨hc1, hc2, hout⟩ := hlock
    have hnf : w.phase ≠ WPhase.finished := by rw [hphase]; intro hx; cases hx
    have hnf2 : WPhase.locked ≠ WPhase.finished := by intro hx; cases hx
    have hd : doneCount (s.writers.set i { w with phase := WPhase.locked }) =
        doneCount s.writers := doneCount_set_stable _ hw hnf hnf2
    refine ⟨by simpa using hlen, by simpa using hobs, ?_⟩
    unfold lockInv
    refine ⟨{ w with phase := WPhase.locked }, get?_set_self _ hw, ?_, ?_⟩
    · intro j w' hj hw'
      rw [List.get?_set_ne _ _ (fun hx => hj hx.symm)] at hw'
      exact hout w' (List.get?_mem hw')
    · exact Or.inl ⟨rfl, by simpa [hd] using hc1, by simpa [hd] using hc2⟩
  | load i w hw hphase hl =>
    unfold lockInv at hlock
    rw [hl] at hlock
    obtain ⟨w0, hw0, hout, hhold⟩ := hlock
    have hww : w0 = w := by rw [hw0] at hw; exact Option.some.inj hw
    subst hww
    have hnf : w0.phase ≠ WPhase.finished := by rw [hphase]; intro hx; cases hx
    have hnf2 : WPhase.loaded ≠ WPhase.finished := by intro hx; cases hx
    have hd : doneCount (s.writers.set i ⟨WPhase.loaded, s.job⟩) =
        doneCount s.writers := doneCount_set_stable _ hw hnf hnf2
    have hjob : s.job.taskCount = doneCount s.writers ∧
        s.job.ctxWrites = doneCount s.writers := by
      rcases hhold with ⟨_, hj1, hj2⟩ | ⟨hp, _⟩ | ⟨hp, _⟩ | ⟨hp, _⟩
      · exact ⟨hj1, hj2⟩
      all_goals (rw [hphase] at hp; cases hp)
    refine ⟨by simpa using hlen, by simpa using hobs, ?_⟩
    simp only [lockInv, hl]
    refine ⟨⟨WPhase.loaded, s.job⟩, get?_set_self _ hw, ?_, ?_⟩
    · intro j w' hj hw'
      rw [List.get?_set_ne _ _ (fun hx => hj hx.symm)] at hw'
      exact hout j w' hj hw'
    · exact Or.inr (Or.inl ⟨rfl, by simpa [hd] using hjob.1,
        by simpa [hd] using hjob.2, rfl⟩)
  | storeCount i w hw hphase hl =>
    unfold lockInv at hlock
    rw [hl] at hlock
    obtain ⟨w0, hw0, hout, hhold⟩ := hlock
    have hww : w0 = w := by rw [hw0] at hw; exact Option.some.inj hw
    subst hww
    have hnf : w0.phase ≠ WPhase.finished := by rw [hphase]; intro hx; cases hx
    have hnf2 : WPhase.counted ≠ WPhase.finished := by intro hx; cases hx
    have hd : doneCount (s.writers.set i { w0 with phase := WPhase.counted }) =
        doneCount s.writers := doneCount_set_stable _ hw hnf hnf2
    have hjob : s.job.taskCount = doneCount s.writers ∧
        s.job.ctxWrites = doneCount s.writers ∧ w0.localJob = s.job := by
      rcases hhold with ⟨hp, _⟩ | ⟨_, hj1, hj2, hj3⟩ | ⟨hp, _⟩ | ⟨hp, _⟩
      · rw [hphase] at hp; cases hp
      · exact ⟨hj1, hj2, hj3⟩
      all_goals (rw [hphase] at hp; cases hp)
    refine ⟨by simpa using hlen, by simpa using hobs, ?_⟩
    simp only [lockInv, hl]
    refine ⟨{ w0 with phase := WPhase.counted }, get?_set_self _ hw, ?_, ?_⟩
    · intro j w' hj hw'
      rw [List.get?_set_ne _ _ (fun hx => hj hx.symm)] at hw'
      exact hout j w' hj hw'
    · refine Or.inr (Or.inr (Or.inl ⟨rfl, ?_, ?_, ?_, ?_⟩)) <;> simp only [hd]
      · rw [hjob.2.2]; exact hjob.1
      · rw [hjob.2.2]; exact hjob.2.1
      · rw [hjob.2.2, hjob.1]
      · exact hjob.2.1
  | storeCtx i w hw hphase hl =>
    unfold lockInv at hlock
    rw [hl] at hlock
    obtain ⟨w0, hw0, hout, hhold⟩ := hlock
    have hww : w0 = w := by rw [hw0] at hw; exact Option.some.inj hw
    subst hww
    have hnf : w0.phase ≠ WPhase.finished := by rw [hphase]; intro hx; cases hx
    have hnf2 : WPhase.stored ≠ WPhase.finished := by intro hx; cases hx
    have hd : doneCount (s.writers.set i { w0 with phase := WPhase.stored }) =
        doneCount s.writers := doneCount_set_stable _ hw hnf hnf2
    have hjob : w0.localJob.taskCount = doneCount s.writers ∧
        w0.localJob.ctxWrites = doneCount s.writers ∧
        s.job.taskCount = doneCount s.writers + 1 ∧
        s.job.ctxWrites = doneCount s.writers := by
      rcases hhold with ⟨hp, _⟩ | ⟨hp, _⟩ | ⟨_, hj1, hj2, hj3, hj4⟩ | ⟨hp, _⟩
      · rw [hphase] at hp; cases hp
      · rw [hphase] at hp; cases hp
      · exact ⟨hj1, hj2, hj3, hj4⟩
      · rw [hphase] at hp; cases hp
    refine ⟨by simpa using hlen, by simpa using hobs, ?_⟩
    simp only [lockInv, hl]
    refine ⟨{ w0 with phase := WPhase.stored }, get?_set_self _ hw, ?_, ?_⟩
    · intro j w' hj hw'
      rw [List.get?_set_ne _ _ (fun hx => hj hx.symm)] at hw'
      exact hout j w' hj hw'
    · refine Or.inr (Or.inr (Or.inr ⟨rfl, ?_, ?_, ?_, ?_⟩)) <;> simp only [hd]
      · exact hjob.1
      · exact hjob.2.1
      · exact hjob.2.2.1
      · simp [hjob.2.1]
  | release i w hw hphase hl =>
    unfold lockInv at hlock
    rw [hl] at hlock
    obtain ⟨w0, hw0, hout, hhold⟩ := hlock
    have hww : w0 = w := by rw [hw0] at hw; exact Option.some.inj hw
    subst hww
    have hnf : w0.phase ≠ WPhase.finished := by rw [hphase]; intro hx; cases hx
    have hd : doneCount (s.writers.set i { w0 with phase := WPhase.finished }) =
        doneCount s.writers + 1 := doneCount_set_finished _ hw hnf rfl
    have hjob : s.job.taskCount = doneCount s.writers + 1 ∧
        s.job.ctxWrites = doneCount s.writers + 1 := by
      rcases hhold with ⟨hp, _⟩ | ⟨hp, _⟩ | ⟨hp, _⟩ | ⟨_, _, _, hj3, hj4⟩
      · rw [hphase] at hp; cases hp
      · rw [hphase] at hp; cases hp
      · rw [hphase] at hp; cases hp
      · exact ⟨hj3, hj4⟩
    refine ⟨by simpa using hlen, by simpa using hobs, ?_⟩
    unfold lockInv
    refine ⟨by simpa [hd] using hjob.1, by simpa [hd] using hjob.2, ?_⟩
    intro w' hw'
    rcases List.mem_iff_get?.mp hw' with ⟨j, hj⟩
    by_cases hji : j = i
    · subst hji
      rw [get?_set_self _ hw] at hj
      have : w' = { w0 with phase := WPhase.finished } := (Option.some.inj hj).symm
      rw [this]
      exact Or.inr rfl
    · rw [List.get?_set_ne _ _ (fun hx => hji hx.symm)] at hj
      exact hout j w' hji hj
  | read hl =>
    unfold lockInv at hlock
    rw [hl] at hlock
    obtain ⟨hc1, hc2, hout⟩ := hlock
    refine ⟨by simpa using hlen, ?_, ?_⟩
    · intro o ho
      rcases List.mem_cons.mp ho with rfl | ho
      · refine ⟨doneCount s.writers, ?_, ?_⟩
        · rw [← hlen]
          exact List.countP_le_length _
        · have he : s.job = CJob.mk s.job.taskCount s.job.ctxWrites := rfl
          rw [he, hc1, hc2]
      · exact hobs o ho
    · unfold lockInv
      rw [hl]
      exact ⟨hc1, hc2, hout⟩

theorem CInv_reach {N : Nat} {s : CState}
    (h : Relation.ReflTransGen CStep (initCState N) s) : CInv N s := by
  induction h with
  | refl => exact CInv_init N
  | tail _ hstep ih => exact CInv_step hstep ih

/-! # The claims -/

/-! ## C4: the filtering reader -/

/-- C4 counterexample: the claim fails on the code.  A chunk consisting
entirely of filtered bytes (here a single 0x00) makes
`filteredReader.Read` return `(0, io.EOF)`, so the copy stops and the
following byte 0x41 of the stream is lost instead of being delivered. -/
theorem C4_counterexample :
    readAll [[0], [65]] ≠ filterChunk (List.flatten [[0], [65]]) := by decide

/-- C4 (amended): reading through the filtering reader yields exactly
the underlying bytes with 0x00, 0x01 and 0x0B removed — nothing else
dropped, reordered or duplicated — for every chunking in which each
chunk retains at least one byte after filtering; a chunk that filters
to nothing makes the reader signal EOF and the rest of the stream is
lost. -/
theorem C4_filtered_stream (cs : List (List Nat))
    (h : ∀ c ∈ cs, filterChunk c ≠ []) :
    readAll cs = filterChunk cs.flatten :=
  readAll_eq_filter_join cs h

theorem C4_witness :
    (∀ c ∈ [[65], [0, 66]], filterChunk c ≠ []) ∧
      readAll [[65], [0, 66]] = filterChunk (List.flatten [[65], [0, 66]]) :=
  ⟨by decide, C4_filtered_stream [[65], [0, 66]] (by decide)⟩

/-! ## C5: container removal -/

/-- A task with no volumes and no resource limits. -/
def plainTask : Task := ⟨"t1", "alpine:3.18", [], ⟨"", ""⟩⟩

/-- The outcome in which `ContainerStart` fails and every other daemon
call succeeds. -/
def startFailOutcome : RunOutcome :=
  ⟨false, false, true, false, false, false, 0, []⟩

/-- C5 counterexample: the claim fails on the code.  When
`ContainerStart` fails, `Run` returns before the cleanup `defer` is
registered, so the container created by `ContainerCreate` is never
removed. -/
theorem C5_counterexample :
    (dockerRun plainTask startFailOutcome).1.created = true ∧
      (dockerRun plainTask startFailOutcome).1.removed = false := by decide

/-- C5 (amended): on every exit path of `Run` other than a
`ContainerStart` failure — including the paths where attaching to the
logs, reading stdout, or waiting for exit fails — a created container
is removed; when `ContainerStart` fails the created container is not
removed. -/
theorem C5_removal (t : Task) (o : RunOutcome) (hstart : o.startErr = false) :
    (dockerRun t o).1.created = true → (dockerRun t o).1.removed = true := by
  unfold dockerRun
  split
  · intro h; simp at h
  · split
    · intro h; simp at h
    · split
      · intro h; simp at h
      · split
        · intro h; simp at h
        · rw [hstart]
          simp only [Bool.false_eq_true, if_false]
          split
          · intro _; rfl
          · split
            · intro _; rfl
            · split
              · intro _; rfl
              · split
                · intro _; rfl
                · intro _; rfl

/-- The outcome in which every daemon call succeeds and the container
exits 0. -/
def cleanOutcome : RunOutcome :=
  ⟨false, false, false, false, false, false, 0, [[104, 105]]⟩

theorem C5_witness :
    (dockerRun plainTask cleanOutcome).1.created = true ∧
      (dockerRun plainTask cleanOutcome).1.removed = true :=
  ⟨by decide, C5_removal plainTask cleanOutcome rfl (by decide)⟩

/-! ## C6: CPU parsing -/

/-- C7: when every daemon call succeeds, `Run` returns the captured
stdout — the first (at most) 1024 = 1 KiB filtered bytes — and no error
on exit status 0, and on a nonzero status an error carrying the exit
code and the captured stdout snapshot. -/
theorem C7_run_result (t : Task) (o : RunOutcome)
    (hp : o.pullErr = false) (hv : t.volumes.find? badVolume = none)
    (hres : ∃ rm, hostResources t = .ok rm)
    (hc : o.createErr = false) (hst : o.startErr = false)
    (hl : o.logsErr = false) (hrd : o.readErr = false)
    (hw : o.waitErr = false) :
    ((readAll o.logChunks).take 1024).length ≤ 1024 ∧
    (o.statusCode = 0 →
      dockerRun t o = (⟨true, true⟩, .ok ((readAll o.logChunks).take 1024))) ∧
    (o.statusCode ≠ 0 →
      dockerRun t o = (⟨true, true⟩,
        .error (RunErr.exitNonZero o.statusCode ((readAll o.logChunks).take 1024)))) := by
  obtain ⟨rm, hrm⟩ := hres
  refine ⟨List.length_take_le _ _, ?_, ?_⟩
  · intro hsc
    unfold dockerRun
    rw [hp, hv, hrm, hc, hst, hl, hrd, hw]
    simp [hsc]
  · intro hsc
    unfold dockerRun
    rw [hp, hv, hrm, hc, hst, hl, hrd, hw]
    simp [hsc]

theorem C7_witness :
    dockerRun plainTask cleanOutcome = (⟨true, true⟩, .ok [104, 105]) := by
  have h := (C7_run_result plainTask cleanOutcome rfl rfl ⟨(0, 0), rfl⟩
    rfl rfl rfl rfl rfl).2.1 rfl
  rw [h]
  rfl

/-! ## C10: absent resource limits -/

/-- C10: empty limit strings parse to 0 with no error, the host config
then carries no CPU or memory limit, and `Run` never fails with an
invalid-CPUs or invalid-memory error for such a task. -/
theorem C10_absent_limits (t : Task) (h1 : t.limits.cpus = "")
    (h2 : t.limits.memory = "") :
    parseCPUs "" = .ok 0 ∧ parseMemory "" = .ok 0 ∧
    hostResources t = .ok (0, 0) ∧
    ∀ o, (dockerRun t o).2 ≠ .error RunErr.invalidCPUs ∧
      (dockerRun t o).2 ≠ .error RunErr.invalidMemory := by
  have hres : hostResources t = .ok (0, 0) := by
    unfold hostResources
    rw [h1, h2]
    rfl
  refine ⟨rfl, rfl, hres, ?_⟩
  intro o
  constructor <;>
  · unfold dockerRun
    rw [hres]
    repeat' split
    all_goals simp_all

theorem C10_witness :
    parseCPUs "" = .ok 0 ∧ parseMemory "" = .ok 0 ∧
      hostResources plainTask = .ok (0, 0) ∧
      (dockerRun plainTask startFailOutcome).2 ≠ .error RunErr.invalidCPUs := by
  have h := C10_absent_limits plainTask rfl rfl
  exact ⟨h.1, h.2.1, h.2.2.1, (h.2.2.2 startFailOutcome).1⟩

/-! ## C1: eviction -/

/-- C1: a Running job is never removed by the sweep, however much time
has elapsed; a terminal job whose terminal timestamp is older than the
(enabled) `JobExpiration` is removed together with its tasks and log
parts, after which `GetJobByID` reports `ErrJobNotFound` and
`GetTaskByID` reports `ErrTaskNotFound`. -/
theorem C1_eviction (cfg : DSConfig) (now : Nat) (ds : Datastore)
    (hjid : (ds.jobs.map Job.id).Nodup) (htid : (ds.tasks.map DTask.id).Nodup) :
    (∀ j ∈ ds.jobs, j.state = JobState.running → j ∈ (sweep cfg now ds).jobs) ∧
    (∀ j ∈ ds.jobs, ∀ ts, j.state.isTerminal = true → j.endedAt = some ts →
      cfg.jobExpiration ≠ 0 → ts + cfg.jobExpiration < now →
      getJobByID (sweep cfg now ds) j.id = .error DSErr.jobNotFound ∧
      ∀ t ∈ ds.tasks, t.jobId = j.id →
        getTaskByID (sweep cfg now ds) t.id = .error DSErr.taskNotFound ∧
        ∀ p ∈ ds.logParts, p.taskId = t.id → p ∉ (sweep cfg now ds).logParts) := by
  constructor
  · intro j hj hrun
    have hexp : jobExpired cfg now j = false := by
      simp [jobExpired, hrun, JobState.isTerminal]
    simp only [sweep, List.mem_filter]
    exact ⟨hj, by simp [hexp]⟩
  · intro j hj ts hterm hend hzero hold
    have hje : jobExpired cfg now j = true := by
      simp [jobExpired, hterm, hend, hzero, hold]
    have hjidmem : j.id ∈ (ds.jobs.filter (jobExpired cfg now)).map Job.id :=
      List.mem_map_of_mem Job.id (List.mem_filter.mpr ⟨hj, hje⟩)
    constructor
    · unfold getJobByID
      have hfind : (sweep cfg now ds).jobs.find? (fun x => x.id = j.id) = none := by
        rw [List.find?_eq_none]
        intro x hx
        simp only [sweep, List.mem_filter] at hx
        intro hxid
        have hid : x.id = j.id := of_decide_eq_true hxid
        have hxj : x = j := List.inj_on_of_nodup_map hjid hx.1 hj hid
        rw [hxj, hje] at hx
        exact absurd hx.2 (by simp)
      rw [hfind]
    · intro t ht htj
      have htmem : t.id ∈
          ((ds.tasks.filter
            (fun x => decide (x.jobId ∈ (ds.jobs.filter (jobExpired cfg now)).map Job.id))).map
            DTask.id) :=
        List.mem_map_of_mem DTask.id
          (List.mem_filter.mpr ⟨ht, decide_eq_true (htj ▸ hjidmem)⟩)
      constructor
      · unfold getTaskByID
        have hfind : (sweep cfg now ds).tasks.find? (fun x => x.id = t.id) = none := by
          rw [List.find?_eq_none]
          intro x hx
          simp only [sweep, List.mem_filter] at hx
          intro hxid
          have hid : x.id = t.id := of_decide_eq_true hxid
          have hxt : x = t := List.inj_on_of_nodup_map htid hx.1 ht hid
          have hx2 := hx.2
          rw [hxt] at hx2
          rw [htj] at hx2
          simp [hjidmem] at hx2
        rw [hfind]
      · intro p hp hptid hmem
        simp only [sweep, List.mem_filter] at hmem
        have hm2 := hmem.2
        rw [hptid] at hm2
        simp [htmem] at hm2

/-- A concrete store for the C1 witness: a running job, a completed job
with one task and one log part. -/
def jobRun : Job := ⟨"jr", JobState.running, none⟩

def jobDone : Job := ⟨"jc", JobState.completed, some 0⟩

def taskDone : DTask := ⟨"tc", "jc"⟩

def partDone : TaskLogPart := ⟨"tc", 1, "hello"⟩

def dsC1 : Datastore := ⟨[jobRun, jobDone], [taskDone], [partDone], []⟩

def cfgC1 : DSConfig := ⟨300, 300, 10⟩

theorem C1_witness :
    jobRun ∈ (sweep cfgC1 100 dsC1).jobs ∧
      getJobByID (sweep cfgC1 100 dsC1) "jc" = .error DSErr.jobNotFound ∧
      getTaskByID (sweep cfgC1 100 dsC1) "tc" = .error DSErr.taskNotFound ∧
      partDone ∉ (sweep cfgC1 100 dsC1).logParts := by
  have h := C1_eviction cfgC1 100 dsC1 (by decide) (by decide)
  have h2 := h.2 jobDone (by decide) 0 rfl rfl (by decide) (by decide)
  exact ⟨h.1 jobRun (by decide) rfl, h2.1, (h2.2 taskDone (by decide) rfl).1,
    (h2.2 taskDone (by decide) rfl).2 partDone (by decide) rfl⟩

/-! ## C8: log part retrieval -/

/-- C8: `GetTaskLogParts` returns the matching parts newest-first by
part number; `Size` is the number of items on the returned page,
`TotalPages` covers all matching parts, and with a non-empty `contains`
every returned part is owned by the task and contains the substring
case-insensitively. -/
theorem C8_log_parts (ds : Datastore) (tid c : String) (page size : Nat)
    (hsize : 1 ≤ size) :
    (getTaskLogParts ds tid c page size).items.Pairwise newerEq ∧
    (getTaskLogParts ds tid c page size).size =
      (getTaskLogParts ds tid c page size).items.length ∧
    (getTaskLogParts ds tid c page size).totalItems =
      (ds.logParts.filter (logPartMatches tid c)).length ∧
    (getTaskLogParts ds tid c page size).totalPages =
      ((ds.logParts.filter (logPartMatches tid c)).length + size - 1) / size ∧
    (ds.logParts.filter (logPartMatches tid c)).length ≤
      (getTaskLogParts ds tid c page size).totalPages * size ∧
    (∀ p ∈ (getTaskLogParts ds tid c page size).items, p.taskId = tid) ∧
    (c ≠ "" → ∀ p ∈ (getTaskLogParts ds tid c page size).items,
      hasSub (lowerChars c) (lowerChars p.contents) = true) := by
  have hsub : (getTaskLogParts ds tid c page size).items.Sublist
      (sortDesc (ds.logParts.filter (logPartMatches tid c))) := by
    simp only [getTaskLogParts]
    exact (List.take_sublist _ _).trans (List.drop_sublist _ _)
  have hmemall : ∀ p ∈ (getTaskLogParts ds tid c page size).items,
      logPartMatches tid c p = true := by
    intro p hp
    have hmem := hsub.mem hp
    rw [mem_sortDesc] at hmem
    exact (List.mem_filter.mp hmem).2
  refine ⟨List.Pairwise.sublist hsub (pairwise_sortDesc _), rfl,
    length_sortDesc _, ?_, ?_, ?_, ?_⟩
  · simp only [getTaskLogParts, length_sortDesc]
  · have hpos : 0 < size := hsize
    have hcover := le_smul_ceilDiv hpos
      (b := (ds.logParts.filter (logPartMatches tid c)).length)
    rw [Nat.ceilDiv_eq_add_pred_div, smul_eq_mul] at hcover
    calc (ds.logParts.filter (logPartMatches tid c)).length
        ≤ size * (((ds.logParts.filter (logPartMatches tid c)).length + size - 1) / size) :=
          hcover
      _ = (getTaskLogParts ds tid c page size).totalPages * size := by
          simp only [getTaskLogParts, length_sortDesc]
          ring
  · intro p hp
    have h := hmemall p hp
    unfold logPartMatches at h
    rw [Bool.and_eq_true] at h
    exact of_decide_eq_true h.1
  · intro hc p hp
    have h := hmemall p hp
    unfold logPartMatches at h
    rw [Bool.and_eq_true] at h
    rcases Bool.or_eq_true_iff.mp h.2 with hx | hx
    · exact absurd (of_decide_eq_true hx) hc
    · exact hx

/-- A concrete store for the C8 witness: three log parts of one task
plus a part of an unrelated task. -/
def dsC8 : Datastore :=
  ⟨[], [], [⟨"t1", 1, "Line one"⟩, ⟨"t1", 2, "Line two"⟩,
    ⟨"t1", 3, "other"⟩, ⟨"t9", 7, "Line nine"⟩], []⟩

theorem C8_witness :
    (getTaskLogParts dsC8 "t1" "LINE" 1 10).items =
      [⟨"t1", 2, "Line two"⟩, ⟨"t1", 1, "Line one"⟩] ∧
    (getTaskLogParts dsC8 "t1" "LINE" 1 10).items.Pairwise newerEq ∧
    (getTaskLogParts dsC8 "t1" "LINE" 1 10).size = 2 ∧
    (getTaskLogParts dsC8 "t1" "LINE" 1 10).totalPages = 1 ∧
    (∀ p ∈ (getTaskLogParts dsC8 "t1" "LINE" 1 10).items,
      hasSub (lowerChars "LINE") (lowerChars p.contents) = true) := by
  have h := C8_log_parts dsC8 "t1" "LINE" 1 10 (by decide)
  exact ⟨by decide, h.1, by decide, by decide, h.2.2.2.2.2.2 (by decide)⟩

/-! ## C9: the permission filter -/

/-- C9: for a non-empty username, a job appears in the `GetJobs` result
set (before pagination slices it into pages) exactly when it matches
the query and is visible to the user: it has no permissions attached,
the user is its creator, a permission names the user, or a permission
names a role assigned to the user. -/
theorem C9_visibility (st : AuthStore) (username q : String) (j : SJob)
    (h : username ≠ "") :
    j ∈ getJobsFiltered st username q ↔
      j ∈ st.jobs ∧ jobMatchesQuery q j = true ∧ VisibleSpec st username j := by
  unfold getJobsFiltered
  rw [List.mem_filter]
  constructor
  · intro ⟨hmem, hcond⟩
    rw [Bool.and_eq_true] at hcond
    rcases Bool.or_eq_true_iff.mp hcond.2 with hx | hx
    · exact absurd (of_decide_eq_true hx) h
    · exact ⟨hmem, hcond.1, (jobVisible_iff st username j).mp hx⟩
  · intro ⟨hmem, hq, hvis⟩
    refine ⟨hmem, ?_⟩
    rw [Bool.and_eq_true]
    exact ⟨hq, Bool.or_eq_true_iff.mpr
      (Or.inr ((jobVisible_iff st username j).mpr hvis))⟩

def aliceU : User := ⟨"u1", "alice"⟩

def bobU : User := ⟨"u2", "bob"⟩

def opsRole : Role := ⟨"r1", "ops"⟩

/-- Private job readable by the ops role; alice holds ops, bob holds
nothing and is not the creator. -/
def opsJob : SJob :=
  ⟨"j1", "deploy", "running", [], some bobU, [⟨none, some opsRole⟩]⟩

def stC9 : AuthStore :=
  ⟨[aliceU, bobU], [opsRole], [("u1", "r1")], [opsJob]⟩

theorem C9_witness :
    opsJob ∈ getJobsFiltered stC9 "alice" "deploy" ∧
      opsJob ∉ getJobsFiltered stC9 "carol" "deploy" := by
  constructor
  · exact (C9_visibility stC9 "alice" "deploy" opsJob (by decide)).mpr
      ⟨by decide, by decide,
        Or.inr (Or.inr (Or.inr ⟨⟨none, some opsRole⟩, by decide, opsRole, rfl,
          aliceU, by decide, rfl, by decide⟩))⟩
  · intro hmem
    have h := (C9_visibility stC9 "carol" "deploy" opsJob (by decide)).mp hmem
    rcases h.2.2 with hx | ⟨c, hc, hcn⟩ | ⟨p, hp, u, hu, hun⟩ | ⟨p, hp, r, hr, u, hu, hun, hur⟩
    · exact absurd hx (by decide)
    · rw [show opsJob.createdBy = some bobU from rfl] at hc
      rw [(Option.some.inj hc).symm] at hcn
      exact absurd hcn (by decide)
    · have : p = ⟨none, some opsRole⟩ := by
        have := hp
        simp only [opsJob, List.mem_singleton] at this
        exact this
      rw [this] at hu
      exact Option.noConfusion hu
    · have hu1 : u ∈ stC9.users := hu
      have : u = aliceU ∨ u = bobU := by
        simpa [stC9, aliceU, bobU] using hu1
      rcases this with rfl | rfl
      · exact absurd hun (by decide)
      · exact absurd hun (by decide)

/-! ## C3: the pending handler on a false condition -/

/-- C3: when a task's `if` expression evaluates to false against the
job context, the pending handler stores the task as Skipped and its
only publication is to the `COMPLETED` queue; in particular nothing is
published to the task's execution queue. -/
theorem C3_conditional_skip (evalExpr : String → JobContext → Bool)
    (ctx : JobContext) (t : HTask)
    (hterm : t.state.isTerminal = false) (hif : t.ifExpr ≠ "")
    (heval : evalExpr t.ifExpr ctx = false) (hq : t.queue ≠ QUEUE_COMPLETED) :
    (pendingHandler evalExpr ctx t).1.state = TaskState.skipped ∧
    (pendingHandler evalExpr ctx t).2 =
      [(QUEUE_COMPLETED, (pendingHandler evalExpr ctx t).1)] ∧
    ∀ m ∈ (pendingHandler evalExpr ctx t).2, m.1 ≠ routeQueue t := by
  have hred : pendingHandler evalExpr ctx t =
      ({ t with state := TaskState.skipped },
        [(QUEUE_COMPLETED, { t with state := TaskState.skipped })]) := by
    unfold pendingHandler
    rw [hterm]
    simp only [Bool.false_eq_true, if_false]
    rw [if_pos]
    rw [Bool.and_eq_true]
    exact ⟨decide_eq_true hif, by rw [heval]; rfl⟩
  refine ⟨by rw [hred], by rw [hred], ?_⟩
  intro m hm
  rw [hred] at hm
  rcases List.mem_singleton.mp hm with rfl
  unfold routeQueue
  by_cases hqe : t.queue ≠ ""
  · rw [if_pos hqe]
    exact fun hx => hq hx.symm
  · rw [if_neg hqe]
    show QUEUE_COMPLETED ≠ QUEUE_DEFAULT
    decide

def skipTask : HTask := ⟨"t1", TaskState.pending, "work", "false"⟩

/-- The expression evaluator of the witness: the literal "false" is
false, everything else true. -/
def litEval : String → JobContext → Bool := fun s _ => !(s = "false")

theorem C3_witness :
    (pendingHandler litEval [] skipTask).1.state = TaskState.skipped ∧
      (pendingHandler litEval [] skipTask).2 =
        [(QUEUE_COMPLETED, (pendingHandler litEval [] skipTask).1)] ∧
      ∀ m ∈ (pendingHandler litEval [] skipTask).2, m.1 ≠ routeQueue skipTask := by
  exact C3_conditional_skip litEval [] skipTask rfl (by decide) (by decide)
    (by decide)

/-! ## C2: concurrent updates lose nothing and tear nothing -/

/-- C2: in every interleaving of `N` concurrent `UpdateJob` increments
with concurrent readers, once all updates have finished the task count
is exactly `N` (no lost updates), and every value a reader observed is
the state after some number `k ≤ N` of complete updates — the pre- or
post-state of each update, never a torn write. -/
theorem C2_concurrent_updates (N : Nat) (s : CState)
    (hreach : Relation.ReflTransGen CStep (initCState N) s)
    (hdone : ∀ w ∈ s.writers, w.phase = WPhase.finished) :
    s.job.taskCount = N ∧ s.job.ctxWrites = N ∧
    ∀ o ∈ s.obs, ∃ k, k ≤ N ∧ o = CJob.mk k k := by
  obtain ⟨hlen, hobs, hlock⟩ := CInv_reach hreach
  unfold lockInv at hlock
  cases hls : s.lock with
  | some i =>
    rw [hls] at hlock
    obtain ⟨w, hw, _, hhold⟩ := hlock
    have hwmem : w ∈ s.writers := List.get?_mem hw
    have hfin := hdone w hwmem
    rcases hhold with ⟨hp, _⟩ | ⟨hp, _⟩ | ⟨hp, _⟩ | ⟨hp, _⟩ <;>
      (rw [hfin] at hp; cases hp)
  | none =>
    rw [hls] at hlock
    obtain ⟨hc1, hc2, _⟩ := hlock
    have hcnt : doneCount s.writers = N := by
      unfold doneCount
      rw [← hlen]
      rw [List.countP_eq_length]
      intro w hw
      exact decide_eq_true (hdone w hw)
    exact ⟨by rw [hc1, hcnt], by rw [hc2, hcnt], hobs⟩

/-- The states of the single-writer, single-reader witness trace. -/
def cw0 : CState := initCState 1

def cw1 : CState := ⟨⟨0, 0⟩, some 0, [⟨WPhase.locked, ⟨0, 0⟩⟩], []⟩

def cw2 : CState := ⟨⟨0, 0⟩, some 0, [⟨WPhase.loaded, ⟨0, 0⟩⟩], []⟩

def cw3 : CState := ⟨⟨1, 0⟩, some 0, [⟨WPhase.counted, ⟨0, 0⟩⟩], []⟩

def cw4 : CState := ⟨⟨1, 1⟩, some 0, [⟨WPhase.stored, ⟨0, 0⟩⟩], []⟩

def cw5 : CState := ⟨⟨1, 1⟩, none, [⟨WPhase.finished, ⟨0, 0⟩⟩], []⟩

def cw6 : CState := ⟨⟨1, 1⟩, none, [⟨WPhase.finished, ⟨0, 0⟩⟩], [⟨1, 1⟩]⟩

theorem C2_witness :
    cw6.job.taskCount = 1 ∧ cw6.job.ctxWrites = 1 ∧
      ∀ o ∈ cw6.obs, ∃ k, k ≤ 1 ∧ o = CJob.mk k k := by
  have h01 : CStep cw0 cw1 := CStep.acquire cw0 0 ⟨WPhase.idle, ⟨0, 0⟩⟩ rfl rfl rfl
  have h12 : CStep cw1 cw2 := CStep.load cw1 0 ⟨WPhase.locked, ⟨0, 0⟩⟩ rfl rfl rfl
  have h23 : CStep cw2 cw3 :=
    CStep.storeCount cw2 0 ⟨WPhase.loaded, ⟨0, 0⟩⟩ rfl rfl rfl
  have h34 : CStep cw3 cw4 :=
    CStep.storeCtx cw3 0 ⟨WPhase.counted, ⟨0, 0⟩⟩ rfl rfl rfl
  have h45 : CStep cw4 cw5 :=
    CStep.release cw4 0 ⟨WPhase.stored, ⟨0, 0⟩⟩ rfl rfl rfl
  have h56 : CStep cw5 cw6 := CStep.read cw5 rfl
  have hreach : Relation.ReflTransGen CStep (initCState 1) cw6 :=
    Relation.ReflTransGen.tail
      (Relation.ReflTransGen.tail
        (Relation.ReflTransGen.tail
          (Relation.ReflTransGen.tail
            (Relation.ReflTransGen.tail
              (Relation.ReflTransGen.tail Relation.ReflTransGen.refl h01)
              h12)
            h23)
          h34)
        h45)
      h56
  exact C2_concurrent_updates 1 cw6 hreach (by decide)

end Tork

